import Mathlib

/-!
Verification of the derivation-window synchronization and cache-reconciliation
engine of the thyme repository (src/main.rs, src/fetch.rs, src/cache.rs,
src/config.rs), as a shallow embedding in Lean 4.

Opaque 32-byte values (puzzle hashes, header hashes, coin identifiers) are
modelled as natural numbers; sha256-based coin-id computation is modelled by
the injective pairing function.  The remote full node (the Peer) is modelled
as an oracle supplying a reply for every request the program can issue.
-/

set_option maxRecDepth 8192

/-- Opaque 32-byte value ([u8; 32] in the source). -/
abbrev Bytes32 := Nat

/-- chia protocol Coin: parent reference, owner puzzle hash, amount (u64). -/
structure Coin where
  parent_coin_info : Bytes32
  puzzle_hash : Bytes32
  amount : Nat
deriving DecidableEq, Repr

/-- Coin.coin_id(): sha256(parent_coin_info, puzzle_hash, amount), modelled as
an injective pairing of the three fields. -/
def Coin.coin_id (c : Coin) : Bytes32 :=
  Nat.pair (Nat.pair c.parent_coin_info c.puzzle_hash) c.amount

/-- chia protocol CoinState as received from the node. -/
structure CoinState where
  coin : Coin
  spent_height : Option Nat
  created_height : Option Nat
deriving DecidableEq, Repr

/-! Association-list model of indexmap.  `imGet` and `imInsert` mirror
IndexMap lookup and insert (insert replaces the value in place when the key
exists, otherwise appends); `isInsert` and `isOfList` mirror IndexSet insert
and collect (first occurrence wins, insertion order preserved). -/

/-- IndexMap::get. -/
def imGet {β : Type} : List (Bytes32 × β) → Bytes32 → Option β
  | [], _ => none
  | (k, v) :: rest, key => if k = key then some v else imGet rest key

/-- IndexMap::insert: replace in place if the key exists, append otherwise. -/
def imInsert {β : Type} : List (Bytes32 × β) → Bytes32 → β → List (Bytes32 × β)
  | [], key, val => [(key, val)]
  | (k, v) :: rest, key, val =>
    if k = key then (k, val) :: rest else (k, v) :: imInsert rest key val

/-- IndexSet::insert: append if absent. -/
def isInsert (s : List Bytes32) (x : Bytes32) : List Bytes32 :=
  if x ∈ s then s else s ++ [x]

/-- Collecting an iterator into an IndexSet. -/
def isOfList (l : List Bytes32) : List Bytes32 := l.foldl isInsert []

/-! Model of src/cache.rs. -/

/-- cache.rs CoinJson. -/
structure CoinJson where
  parent_coin_info : Bytes32
  puzzle_hash : Bytes32
  amount : Nat
deriving DecidableEq, Repr

/-- impl From Coin for CoinJson (field-wise). -/
def CoinJson.ofCoin (c : Coin) : CoinJson :=
  { parent_coin_info := c.parent_coin_info
    puzzle_hash := c.puzzle_hash
    amount := c.amount }

/-- cache.rs LineageProofJson. -/
structure LineageProofJson where
  parent_parent_coin_info : Bytes32
  parent_inner_puzzle_hash : Bytes32
  parent_amount : Nat
deriving DecidableEq, Repr

/-- cache.rs CatJson. -/
structure CatJson where
  asset_id : Bytes32
  p2_puzzle_hash : Bytes32
  coin : CoinJson
  lineage_proof : Option LineageProofJson
deriving DecidableEq, Repr

/-- cache.rs PuzzleInfo. -/
inductive PuzzleInfo where
  | Cat (c : CatJson)
  | Unknown
deriving DecidableEq, Repr

/-- cache.rs CoinStateJson. -/
structure CoinStateJson where
  coin : CoinJson
  parent_puzzle : Option PuzzleInfo
  created_height : Option Nat
  spent_height : Option Nat
deriving DecidableEq, Repr

/-- cache.rs Derivations: one derivation window. -/
structure Derivations where
  previous_height : Option Nat
  header_hash : Bytes32
  puzzle_hashes : List Bytes32
  coin_states : List (Bytes32 × CoinStateJson)
deriving DecidableEq, Repr

/-- cache.rs Cache. -/
structure Cache where
  derivations : List Derivations
deriving DecidableEq, Repr

/-- config.rs Config (full_node_uri and network_id are carried but unused by
the synchronization core). -/
structure Config where
  full_node_uri : String
  genesis_challenge : Bytes32
  network_id : String
  dust_threshold : Nat

/-! Model of src/fetch.rs.  A run of fetch_coin_states is driven by the finite
list of replies the peer gives to its successive RequestPuzzleState requests. -/

/-- chia protocol RespondPuzzleState. -/
structure RespondPuzzleState where
  coin_states : List CoinState
  height : Nat
  header_hash : Bytes32
  is_finished : Bool
deriving DecidableEq, Repr

/-- chia protocol RejectStateReason. -/
inductive RejectStateReason where
  | exceededSubscriptionLimit
  | reorg
deriving DecidableEq, Repr

/-- One peer reply to a RequestPuzzleState request: a page, a rejection, or a
transport-level client error. -/
inductive FetchReply where
  | ok (r : RespondPuzzleState)
  | reject (reason : RejectStateReason)
  | otherError
deriving DecidableEq, Repr

/-- The bail! / error cases of fetch_coin_states. -/
inductive FetchError where
  | subscriptionLimit
  | reorgUnanchored
  | transport
deriving DecidableEq, Repr

/-- Outcome of the request loop of fetch_coin_states (fetch.rs lines 27-63):
the loop breaks with the accumulated state, bails with an error, or — when the
reply script is exhausted without a finished page — is still awaiting a reply. -/
inductive LoopOutcome where
  | finished (coin_states : List CoinState) (previous_height : Option Nat)
      (header_hash : Bytes32)
  | failed (e : FetchError)
  | incomplete
deriving DecidableEq, Repr

/-- Outcome of fetch_coin_states as a whole.  `panicked` is the
previous_height.unwrap() panic at fetch.rs line 70. -/
inductive FetchOutcome where
  | success (coin_states : List CoinState) (height : Nat) (header_hash : Bytes32)
  | failed (e : FetchError)
  | panicked
  | incomplete
deriving DecidableEq, Repr

def FetchOutcome.isPanicked : FetchOutcome → Bool
  | .panicked => true
  | _ => false

/-- The request loop of fetch_coin_states.  State variables mirror the Rust
mutables: start_previous_height (reassigned to None on reorg recovery),
previous_height, header_hash, and the coin_states accumulator. -/
def fetchLoop (genesis_challenge : Bytes32) (start_previous_height : Option Nat)
    (previous_height : Option Nat) (header_hash : Bytes32)
    (coin_states : List CoinState) : List FetchReply → LoopOutcome
  | [] => .incomplete
  | reply :: rest =>
    match reply with
    | .ok r =>
      if r.is_finished then
        .finished (coin_states ++ r.coin_states) (some r.height) r.header_hash
      else
        fetchLoop genesis_challenge start_previous_height (some r.height)
          r.header_hash (coin_states ++ r.coin_states) rest
    | .reject .exceededSubscriptionLimit => .failed .subscriptionLimit
    | .reject .reorg =>
      if start_previous_height.isNone then
        .failed .reorgUnanchored
      else
        fetchLoop genesis_challenge none none genesis_challenge [] rest
    | .otherError => .failed .transport

/-- fetch.rs fetch_coin_states.  The peer argument is replaced by the reply
script; puzzle_hashes is carried in every request and does not otherwise
influence the control flow. -/
def fetch_coin_states (genesis_challenge : Bytes32)
    (start_previous_height : Option Nat) (start_header_hash : Bytes32)
    (puzzle_hashes : List Bytes32) (dust_threshold : Nat)
    (replies : List FetchReply) : FetchOutcome :=
  match fetchLoop genesis_challenge start_previous_height start_previous_height
      start_header_hash [] replies with
  | .finished coin_states previous_height header_hash =>
    let coin_states :=
      coin_states.filter (fun cs => decide (dust_threshold ≤ cs.coin.amount))
    match previous_height with
    | some h => .success coin_states h header_hash
    | none => .panicked
  | .failed e => .failed e
  | .incomplete => .incomplete

/-- Every Ok page in a reply script reports a height of at least h0. -/
def heightsAtLeast (h0 : Nat) (replies : List FetchReply) : Bool :=
  replies.all fun reply =>
    match reply with
    | .ok r => decide (h0 ≤ r.height)
    | _ => true

/-! Model of src/main.rs update_cache.  The peer is an oracle: a reply script
per window index for RequestPuzzleState, and reply functions for
request_puzzle_and_solution and RequestCoinState.  The fixed request fields
(previous_height = None, header_hash = genesis, subscribe = false of the
parent RequestCoinState) are folded into the oracle.  The black-box CLVM
layer (to_clvm, Puzzle::parse, Cat::from_parent_spend) is an oracle from the
opaque puzzle-and-solution payload and the parent and child coins to the
already-flattened Option result of Cat::from_parent_spend. -/

/-- Reply to request_puzzle_and_solution: a PuzzleSolutionResponse with an
opaque puzzle-and-solution payload, a RejectPuzzleSolution, or another client
error. -/
inductive PSReply where
  | ok (psdata : Nat)
  | reject
  | err
deriving DecidableEq, Repr

/-- Reply to a RequestCoinState by coin id: a RespondCoinState or an error. -/
inductive CSReply where
  | ok (coin_states : List CoinState)
  | err
deriving DecidableEq, Repr

/-- The remote peer, as an oracle. -/
structure Network where
  fetch_replies : Nat → List FetchReply
  puzzle_solution : Bytes32 → Nat → PSReply
  coin_state_by_id : Bytes32 → CSReply
  from_parent_spend : Nat → Coin → Coin → Option CatJson

/-- Outcome of the per-coin body of the for loop of update_cache
(main.rs lines 145-228): fall through and insert a record with the computed
parent_puzzle, skip via continue, propagate an error, or panic (the
created_height.unwrap() at line 174). -/
inductive CoinOutcome where
  | keep (parent_puzzle : Option PuzzleInfo)
  | skip
  | failed
  | panicked
deriving DecidableEq, Repr

/-- The resolution path of main.rs lines 163-216: unwrap created_height,
request the parent puzzle and solution, on success request the parent coin
state and run the CAT detector; a puzzle-and-solution rejection yields None. -/
def resolveParent (net : Network) (cs : CoinState) : CoinOutcome :=
  match cs.created_height with
  | none => .panicked
  | some created =>
    match net.puzzle_solution cs.coin.parent_coin_info created with
    | .ok psdata =>
      match net.coin_state_by_id cs.coin.parent_coin_info with
      | .err => .failed
      | .ok parent_states =>
        match parent_states.head? with
        | none => .failed
        | some parent_coin_state =>
          .keep ((net.from_parent_spend psdata parent_coin_state.coin
            cs.coin).map PuzzleInfo.Cat)
    | .reject => .keep none
    | .err => .failed

/-- The per-coin body of the for loop of update_cache (main.rs lines 146-217):
a window address short-circuits to parent_puzzle = None; otherwise an existing
record with unchanged spent_height is skipped, and anything else goes through
the resolution path. -/
def processCoin (net : Network) (w : Derivations) (cs : CoinState) : CoinOutcome :=
  if cs.coin.puzzle_hash ∈ w.puzzle_hashes then
    .keep none
  else
    match imGet w.coin_states cs.coin.coin_id with
    | some existing =>
      if existing.spent_height = cs.spent_height then .skip
      else resolveParent net cs
    | none => resolveParent net cs

/-- Outcome of the whole for loop over the fetched coin states, acting on one
window.  `saves` counts the cache.save calls issued at main.rs line 228, one
per inserted record. -/
inductive RoundOutcome where
  | ok (w : Derivations) (saves : Nat)
  | failed (w : Derivations)
  | panicked (w : Derivations)
deriving DecidableEq, Repr

/-- The for loop of update_cache (main.rs lines 145-229): process each fetched
coin state in order against the current window, inserting a CoinStateJson
record keyed by the coin id and saving the cache after each insert. -/
def processCoins (net : Network) (w : Derivations) :
    List CoinState → RoundOutcome
  | [] => .ok w 0
  | cs :: rest =>
    match processCoin net w cs with
    | .skip => processCoins net w rest
    | .failed => .failed w
    | .panicked => .panicked w
    | .keep parent_puzzle =>
      let record : CoinStateJson :=
        { coin := CoinJson.ofCoin cs.coin
          parent_puzzle := parent_puzzle
          created_height := cs.created_height
          spent_height := cs.spent_height }
      let w' := { w with
        coin_states := imInsert w.coin_states cs.coin.coin_id record }
      match processCoins net w' rest with
      | .ok w₂ saves => .ok w₂ (saves + 1)
      | o => o

/-- Default window used by the total list accessors (never observed: every
access in update_cache is in bounds). -/
def defaultWindow : Derivations :=
  { previous_height := none, header_hash := 0, puzzle_hashes := [], coin_states := [] }

def getWin (c : Cache) (i : Nat) : Derivations := c.derivations.getD i defaultWindow

def setWin (c : Cache) (i : Nat) (w : Derivations) : Cache :=
  { derivations := c.derivations.set i w }

/-- Outcome of update_cache.  The Rust function mutates the cache through an
exclusive borrow, so every outcome carries the cache as the caller observes it
(for `panicked`, as persisted on disk).  `done` also carries the list of
window indices for which a RequestPuzzleState fetch was issued, in order.
`stuck` marks a reply script exhausted with the loop still awaiting a reply;
`outOfFuel` marks recursion fuel exhaustion of the model (the Rust loop has no
built-in bound). -/
inductive UCOutcome where
  | done (cache : Cache) (fetched : List Nat)
  | failed (cache : Cache)
  | panicked (cache : Cache)
  | stuck (cache : Cache)
  | outOfFuel (cache : Cache)
deriving DecidableEq, Repr

/-- The Derivations record pushed when update_cache creates window `index`
(main.rs lines 115-128): an unanchored cursor at the genesis header hash,
1001 puzzle hashes derived for indices index*1000 ..= index*1000 + 1000 and
collected in order into an IndexSet, and an empty coin-state map; `derive`
stands for
StandardArgs::curry_tree_hash(intermediate_pk.derive_unhardened(i).derive_synthetic()). -/
def newWindow (config : Config) (derive : Nat → Bytes32) (index : Nat) :
    Derivations :=
  { previous_height := none
    header_hash := config.genesis_challenge
    puzzle_hashes := isOfList ((List.range' (index * 1000) 1001).map derive)
    coin_states := [] }

/-- The orchestrator loop of update_cache (main.rs lines 107-240), one
iteration per window index. -/
def update_cacheLoop (net : Network) (config : Config) (derive : Nat → Bytes32) :
    Nat → Nat → Cache → UCOutcome
  | 0, _, cache => .outOfFuel cache
  | fuel + 1, index, cache =>
    let cache :=
      if cache.derivations.length ≤ index then
        { derivations := cache.derivations ++ [newWindow config derive index] }
      else cache
    match fetch_coin_states config.genesis_challenge
        (getWin cache index).previous_height (getWin cache index).header_hash
        (getWin cache index).puzzle_hashes config.dust_threshold
        (net.fetch_replies index) with
    | .failed _ => .failed cache
    | .panicked => .panicked cache
    | .incomplete => .stuck cache
    | .success coin_states previous_height previous_header_hash =>
      match processCoins net (getWin cache index) coin_states with
      | .failed w => .failed (setWin cache index w)
      | .panicked w => .panicked (setWin cache index w)
      | .ok w _saves =>
        let w := { w with previous_height := some previous_height
                          header_hash := previous_header_hash }
        let cache := setWin cache index w
        if w.coin_states.isEmpty then
          .done cache [index]
        else
          match update_cacheLoop net config derive fuel (index + 1) cache with
          | .done c t => .done c (index :: t)
          | o => o

/-- main.rs update_cache: run the orchestrator loop from index 0. -/
def update_cache (net : Network) (config : Config) (derive : Nat → Bytes32)
    (fuel : Nat) (cache : Cache) : UCOutcome :=
  update_cacheLoop net config derive fuel 0 cache

/-- The address set a freshly created window at index i receives. -/
def windowSpec (derive : Nat → Bytes32) (i : Nat) : List Bytes32 :=
  isOfList ((List.range' (i * 1000) 1001).map derive)

/-! Model of Cache::save / Cache::load (cache.rs lines 90-107).  Both are the
derived serde Serialize/Deserialize structure of Cache rendered to a JSON
value: struct fields become object fields in declaration order, 32-byte values
become lowercase hex strings (serde_with Hex), Option fields are nullable, the
IndexSet becomes an array, the IndexMap becomes an object with hex-string keys
in insertion order, and the externally tagged PuzzleInfo enum becomes either
an object with the single key Cat or the plain string Unknown.  The
serde_json string printer/parser pair is the external library and is not
re-modelled; save produces the JSON value written, load parses it back. -/

inductive Json where
  | null
  | num (n : Nat)
  | str (s : String)
  | arr (elements : List Json)
  | obj (fields : List (String × Json))

/-- Value of a hex digit character (inverse of Nat.digitChar below 16). -/
def hexVal (c : Char) : Nat :=
  if c = '0' then 0 else if c = '1' then 1 else if c = '2' then 2
  else if c = '3' then 3 else if c = '4' then 4 else if c = '5' then 5
  else if c = '6' then 6 else if c = '7' then 7 else if c = '8' then 8
  else if c = '9' then 9 else if c = 'a' then 10 else if c = 'b' then 11
  else if c = 'c' then 12 else if c = 'd' then 13 else if c = 'e' then 14
  else if c = 'f' then 15 else 0

/-- Lowercase hex rendering of an opaque 32-byte value. -/
def hexOfNat (n : Nat) : String :=
  String.mk (((Nat.digits 16 n).map Nat.digitChar).reverse)

/-- Parsing a hex string back to the value. -/
def natOfHex (s : String) : Nat :=
  Nat.ofDigits 16 (s.data.reverse.map hexVal)

def encHex (b : Bytes32) : Json := .str (hexOfNat b)

def decHex : Json → Option Bytes32
  | .str s => some (natOfHex s)
  | _ => none

def encOptNat : Option Nat → Json
  | none => .null
  | some n => .num n

def decOptNat : Json → Option (Option Nat)
  | .null => some none
  | .num n => some (some n)
  | _ => none

def encCoinJson (c : CoinJson) : Json :=
  .obj [("parent_coin_info", encHex c.parent_coin_info),
        ("puzzle_hash", encHex c.puzzle_hash),
        ("amount", .num c.amount)]

def decCoinJson : Json → Option CoinJson
  | .obj [("parent_coin_info", p), ("puzzle_hash", q), ("amount", Json.num a)] =>
    match decHex p, decHex q with
    | some pn, some qn =>
      some { parent_coin_info := pn, puzzle_hash := qn, amount := a }
    | _, _ => none
  | _ => none

def encLineage (p : LineageProofJson) : Json :=
  .obj [("parent_parent_coin_info", encHex p.parent_parent_coin_info),
        ("parent_inner_puzzle_hash", encHex p.parent_inner_puzzle_hash),
        ("parent_amount", .num p.parent_amount)]

def decLineage : Json → Option LineageProofJson
  | .obj [("parent_parent_coin_info", a), ("parent_inner_puzzle_hash", b),
          ("parent_amount", Json.num m)] =>
    match decHex a, decHex b with
    | some an, some bn =>
      some { parent_parent_coin_info := an, parent_inner_puzzle_hash := bn,
             parent_amount := m }
    | _, _ => none
  | _ => none

def encOptLineage : Option LineageProofJson → Json
  | none => .null
  | some p => encLineage p

def decOptLineage : Json → Option (Option LineageProofJson)
  | .null => some none
  | j => (decLineage j).map some

def encCat (c : CatJson) : Json :=
  .obj [("asset_id", encHex c.asset_id),
        ("p2_puzzle_hash", encHex c.p2_puzzle_hash),
        ("coin", encCoinJson c.coin),
        ("lineage_proof", encOptLineage c.lineage_proof)]

def decCat : Json → Option CatJson
  | .obj [("asset_id", a), ("p2_puzzle_hash", p), ("coin", cj),
          ("lineage_proof", lp)] =>
    match decHex a, decHex p, decCoinJson cj, decOptLineage lp with
    | some an, some pn, some c, some l =>
      some { asset_id := an, p2_puzzle_hash := pn, coin := c, lineage_proof := l }
    | _, _, _, _ => none
  | _ => none

def encPuzzleInfo : PuzzleInfo → Json
  | .Cat c => .obj [("Cat", encCat c)]
  | .Unknown => .str "Unknown"

def decPuzzleInfo : Json → Option PuzzleInfo
  | .obj [("Cat", cj)] => (decCat cj).map PuzzleInfo.Cat
  | .str "Unknown" => some .Unknown
  | _ => none

def encOptPuzzleInfo : Option PuzzleInfo → Json
  | none => .null
  | some p => encPuzzleInfo p

def decOptPuzzleInfo : Json → Option (Option PuzzleInfo)
  | .null => some none
  | j => (decPuzzleInfo j).map some

def encCoinStateJson (cs : CoinStateJson) : Json :=
  .obj [("coin", encCoinJson cs.coin),
        ("parent_puzzle", encOptPuzzleInfo cs.parent_puzzle),
        ("created_height", encOptNat cs.created_height),
        ("spent_height", encOptNat cs.spent_height)]

def decCoinStateJson : Json → Option CoinStateJson
  | .obj [("coin", cj), ("parent_puzzle", pp), ("created_height", ch),
          ("spent_height", sh)] =>
    match decCoinJson cj, decOptPuzzleInfo pp, decOptNat ch, decOptNat sh with
    | some c, some p, some cr, some sp =>
      some { coin := c, parent_puzzle := p, created_height := cr, spent_height := sp }
    | _, _, _, _ => none
  | _ => none

def decHexList : List Json → Option (List Bytes32)
  | [] => some []
  | j :: rest =>
    match decHex j, decHexList rest with
    | some b, some l => some (b :: l)
    | _, _ => none

def encCoinStates (m : List (Bytes32 × CoinStateJson)) : List (String × Json) :=
  m.map fun kv => (hexOfNat kv.1, encCoinStateJson kv.2)

def decCoinStates : List (String × Json) → Option (List (Bytes32 × CoinStateJson))
  | [] => some []
  | (k, v) :: rest =>
    match decCoinStateJson v, decCoinStates rest with
    | some cs, some l => some ((natOfHex k, cs) :: l)
    | _, _ => none

def encDerivations (d : Derivations) : Json :=
  .obj [("previous_height", encOptNat d.previous_height),
        ("header_hash", encHex d.header_hash),
        ("puzzle_hashes", .arr (d.puzzle_hashes.map encHex)),
        ("coin_states", .obj (encCoinStates d.coin_states))]

def decDerivations : Json → Option Derivations
  | .obj [("previous_height", ph), ("header_hash", hh),
          ("puzzle_hashes", Json.arr phs), ("coin_states", Json.obj cs)] =>
    match decOptNat ph, decHex hh, decHexList phs, decCoinStates cs with
    | some a, some b, some c, some d => some ⟨a, b, c, d⟩
    | _, _, _, _ => none
  | _ => none

def decDerivList : List Json → Option (List Derivations)
  | [] => some []
  | j :: rest =>
    match decDerivations j, decDerivList rest with
    | some d, some l => some (d :: l)
    | _, _ => none

/-- Cache::save, rendered to the JSON value written to the cache file. -/
def Cache.toJson (c : Cache) : Json :=
  .obj [("derivations", .arr (c.derivations.map encDerivations))]

/-- Cache::load applied to a JSON value read back from the cache file. -/
def Cache.fromJson : Json → Option Cache
  | .obj [("derivations", Json.arr ds)] => (decDerivList ds).map Cache.mk
  | _ => none

/-! Concrete instances used to exercise the theorems on closed inputs. -/

/-- A trivial peer: every window's fetch yields a single empty finished page
at height 0, puzzle-and-solution lookups are rejected, coin-state lookups
fail, and the CAT detector never matches. -/
def net0 : Network :=
  { fetch_replies := fun _ => [.ok ⟨[], 0, 0, true⟩]
    puzzle_solution := fun _ _ => .reject
    coin_state_by_id := fun _ => .err
    from_parent_spend := fun _ _ _ => none }

/-- A small concrete configuration. -/
def config0 : Config :=
  { full_node_uri := "localhost:8444"
    genesis_challenge := 0
    network_id := "mainnet"
    dust_threshold := 0 }

/-- A degenerate derivation function. -/
def derive0 : Nat → Bytes32 := fun _ => 0

/-- The cache produced by update_cache against net0 from an empty cache:
one window, synchronized to height 0, with no coin states. -/
def doneCache0 : Cache :=
  ⟨[⟨some 0, 0, (newWindow config0 derive0 0).puzzle_hashes, []⟩]⟩

/-- A coin whose puzzle hash is 7, fetched with created height 2 and spent
height 3. -/
def coinX : Coin := ⟨1, 7, 10⟩

def csX : CoinState := ⟨coinX, some 3, some 2⟩

/-- A window that does not contain puzzle hash 7. -/
def wAddr : Derivations := ⟨none, 0, [5], []⟩

/-- A window that contains puzzle hash 7. -/
def wSelf : Derivations := ⟨none, 0, [7], []⟩

/-- A window that already holds a record for coinX with the same spent
height. -/
def wSeen : Derivations :=
  ⟨none, 0, [5], [(coinX.coin_id, ⟨⟨1, 7, 10⟩, none, some 2, some 3⟩)]⟩

/-! Helper lemmas about the request loop of fetch_coin_states. -/

/-- A loop run that breaks always carries a concrete height: the break is
reachable only right after a page assigned previous_height = Some(height). -/
theorem fetchLoop_finished_isSome (script : List FetchReply) :
    ∀ g sph ph hh acc out oph ohh,
      fetchLoop g sph ph hh acc script = .finished out oph ohh →
      Option.isSome oph = true := by
  induction script with
  | nil =>
    intro g sph ph hh acc out oph ohh h
    simp [fetchLoop] at h
  | cons reply rest ih =>
    intro g sph ph hh acc out oph ohh h
    cases reply with
    | ok r =>
      simp only [fetchLoop] at h
      split at h
      · injection h with h1 h2 h3
        rw [← h2]
        rfl
      · exact ih g sph (some r.height) r.header_hash (acc ++ r.coin_states)
          out oph ohh h
    | reject reason =>
      cases reason with
      | exceededSubscriptionLimit => simp [fetchLoop] at h
      | reorg =>
        simp only [fetchLoop] at h
        split at h
        · simp at h
        · exact ih g none none g [] out oph ohh h
    | otherError => simp [fetchLoop] at h

/-- Every coin state the loop breaks with was either already accumulated or
delivered by some Ok page of the reply script. -/
theorem fetchLoop_finished_mem (script : List FetchReply) :
    ∀ g sph ph hh acc out oph ohh,
      fetchLoop g sph ph hh acc script = .finished out oph ohh →
      ∀ cs ∈ out, cs ∈ acc ∨
        ∃ r, FetchReply.ok r ∈ script ∧ cs ∈ r.coin_states := by
  induction script with
  | nil =>
    intro g sph ph hh acc out oph ohh h
    simp [fetchLoop] at h
  | cons reply rest ih =>
    intro g sph ph hh acc out oph ohh h cs hcs
    cases reply with
    | ok r =>
      simp only [fetchLoop] at h
      split at h
      · injection h with h1 h2 h3
        rw [← h1] at hcs
        rcases List.mem_append.mp hcs with hL | hR
        · exact Or.inl hL
        · exact Or.inr ⟨r, List.mem_cons_self _ _, hR⟩
      · rcases ih g sph (some r.height) r.header_hash (acc ++ r.coin_states)
            out oph ohh h cs hcs with hL | ⟨r', hr', hmem⟩
        · rcases List.mem_append.mp hL with hA | hB
          · exact Or.inl hA
          · exact Or.inr ⟨r, List.mem_cons_self _ _, hB⟩
        · exact Or.inr ⟨r', List.mem_cons_of_mem _ hr', hmem⟩
    | reject reason =>
      cases reason with
      | exceededSubscriptionLimit => simp [fetchLoop] at h
      | reorg =>
        simp only [fetchLoop] at h
        split at h
        · simp at h
        · rcases ih g none none g [] out oph ohh h cs hcs with hL | ⟨r', hr', hmem⟩
          · simp at hL
          · exact Or.inr ⟨r', List.mem_cons_of_mem _ hr', hmem⟩
    | otherError => simp [fetchLoop] at h

/-- The height the loop breaks with is the height reported by some Ok page of
the reply script. -/
theorem fetchLoop_finished_height (script : List FetchReply) :
    ∀ g sph ph hh acc out oph ohh,
      fetchLoop g sph ph hh acc script = .finished out oph ohh →
      ∃ r, FetchReply.ok r ∈ script ∧ oph = some r.height := by
  induction script with
  | nil =>
    intro g sph ph hh acc out oph ohh h
    simp [fetchLoop] at h
  | cons reply rest ih =>
    intro g sph ph hh acc out oph ohh h
    cases reply with
    | ok r =>
      simp only [fetchLoop] at h
      split at h
      · injection h with h1 h2 h3
        exact ⟨r, List.mem_cons_self _ _, h2.symm⟩
      · rcases ih g sph (some r.height) r.header_hash (acc ++ r.coin_states)
            out oph ohh h with ⟨r', hr', hh'⟩
        exact ⟨r', List.mem_cons_of_mem _ hr', hh'⟩
    | reject reason =>
      cases reason with
      | exceededSubscriptionLimit => simp [fetchLoop] at h
      | reorg =>
        simp only [fetchLoop] at h
        split at h
        · simp at h
        · rcases ih g none none g [] out oph ohh h with ⟨r', hr', hh'⟩
          exact ⟨r', List.mem_cons_of_mem _ hr', hh'⟩
    | otherError => simp [fetchLoop] at h

/-- Claim C6: for every starting cursor (including previousHeight = None) and
every reply script, a non-error return of fetch_coin_states always carries a
concrete height: the request loop only exits on a finished page, every
accepted page assigns Some(height) before the finished check, and therefore
the previous_height.unwrap() at the return site never panics. -/
theorem fetch_coin_states_never_panics (g : Bytes32) (sph : Option Nat)
    (shh : Bytes32) (phs : List Bytes32) (dust : Nat)
    (replies : List FetchReply) :
    (fetch_coin_states g sph shh phs dust replies).isPanicked = false := by
  unfold fetch_coin_states
  cases hL : fetchLoop g sph sph shh [] replies with
  | finished out oph ohh =>
    have hsome := fetchLoop_finished_isSome replies g sph sph shh [] out oph ohh hL
    cases oph with
    | none => simp at hsome
    | some h => simp [FetchOutcome.isPanicked]
  | failed e => simp [FetchOutcome.isPanicked]
  | incomplete => simp [FetchOutcome.isPanicked]

/-- Claim C3, counterexample: the original starting cursor has
previousHeight = Some(1), yet the second reorg rejection of the same call is
fatal — because the first recovery reassigned start_previous_height to None —
contradicting the claim that a reorg rejection is fatal only when the
original starting cursor was None. -/
theorem fetch_second_reorg_fatal :
    fetch_coin_states 0 (some 1) 0 [] 0
        [.reject .reorg, .reject .reorg] = .failed .reorgUnanchored ∧
      Option.isSome (some 1 : Option Nat) = true := by
  exact ⟨rfl, rfl⟩

/-- Claim C3, amended: a reorg rejection is fatal if and only if the anchor
held in start_previous_height at the moment of the rejection is None — that
is, the original starting cursor was None or an earlier reorg rejection in the
same call already reset it.  When the anchor is still Some, the rejection
resets the cursor to None with the genesis header hash, discards the
accumulated deltas, and restarts the request loop. -/
theorem fetchLoop_reorg_cases (g : Bytes32) (h0 : Nat) (ph : Option Nat)
    (hh : Bytes32) (acc : List CoinState) (rest : List FetchReply) :
    fetchLoop g (some h0) ph hh acc (.reject .reorg :: rest) =
        fetchLoop g none none g [] rest ∧
      ∀ ph' hh' acc', fetchLoop g none ph' hh' acc' (.reject .reorg :: rest) =
        .failed .reorgUnanchored := by
  exact ⟨rfl, fun ph' hh' acc' => rfl⟩

/-- Claim C4: reorg recovery inside fetch_coin_states clears only the
in-flight accumulator of the current fetch attempt.  The fetcher neither
receives nor returns the Cache (its signature carries only the cursor, the
addresses and the reply script), so the coin states previously merged into
the Cache cannot be read or modified by it; the first conjunct shows that a
recovered reorg rejection is the same call restarted from genesis with an
empty in-flight delta, and the second shows the result after the rejection is
independent of whatever delta and cursor had been accumulated in-flight. -/
theorem fetch_reorg_frame (g : Bytes32) (h0 : Nat) (shh : Bytes32)
    (phs : List Bytes32) (dust : Nat) (rest : List FetchReply) :
    fetch_coin_states g (some h0) shh phs dust (.reject .reorg :: rest) =
        fetch_coin_states g none g phs dust rest ∧
      ∀ ph ph' hh hh' acc acc',
        fetchLoop g (some h0) ph hh acc (.reject .reorg :: rest) =
          fetchLoop g (some h0) ph' hh' acc' (.reject .reorg :: rest) := by
  exact ⟨rfl, fun ph ph' hh hh' acc acc' => rfl⟩

/-- Claim C5: on success with dust threshold t, every returned coin state has
amount at least t; the returned list is exactly the accumulator the request
loop finished with (the coin states accumulated from the node and not
discarded by a reorg reset) restricted to amounts at least t; and every
returned coin state was delivered by some Ok page of the reply script. -/
theorem fetch_dust_filter (g : Bytes32) (sph : Option Nat) (shh : Bytes32)
    (phs : List Bytes32) (dust : Nat) (replies : List FetchReply)
    (l : List CoinState) (h : Nat) (hh : Bytes32)
    (hs : fetch_coin_states g sph shh phs dust replies = .success l h hh) :
    (∀ cs ∈ l, dust ≤ cs.coin.amount) ∧
      (∀ raw oph ohh,
        fetchLoop g sph sph shh [] replies = .finished raw oph ohh →
        ∀ cs, cs ∈ l ↔ cs ∈ raw ∧ dust ≤ cs.coin.amount) ∧
      (∀ cs ∈ l, ∃ r, FetchReply.ok r ∈ replies ∧ cs ∈ r.coin_states) := by
  unfold fetch_coin_states at hs
  cases hL : fetchLoop g sph sph shh [] replies with
  | finished out oph ohh =>
    rw [hL] at hs
    simp only at hs
    cases oph with
    | none => simp at hs
    | some hgt =>
      simp only at hs
      injection hs with h1 h2 h3
      refine ⟨?_, ?_, ?_⟩
      · intro cs hcs
        rw [← h1] at hcs
        have := (List.mem_filter.mp hcs).2
        exact of_decide_eq_true this
      · intro raw oph' ohh' hL' cs
        injection hL' with hA hB hC
        constructor
        · intro hcs
          rw [← h1] at hcs
          have hm := List.mem_filter.mp hcs
          exact ⟨hA ▸ hm.1, of_decide_eq_true hm.2⟩
        · intro ⟨hcs, hd⟩
          rw [← h1]
          exact List.mem_filter.mpr ⟨hA ▸ hcs, decide_eq_true hd⟩
      · intro cs hcs
        rw [← h1] at hcs
        have hm := (List.mem_filter.mp hcs).1
        rcases fetchLoop_finished_mem replies g sph sph shh [] out (some hgt)
            ohh hL cs hm with hnil | hex
        · simp at hnil
        · exact hex
  | failed e =>
    rw [hL] at hs
    simp at hs
  | incomplete =>
    rw [hL] at hs
    simp at hs

/-- Claim C5, witness. -/
theorem fetch_dust_filter_witness : 3 ≤ (5 : Nat) := by
  have hthm := fetch_dust_filter 0 none 0 [] 3
      [.ok ⟨[⟨⟨1, 2, 1⟩, none, some 1⟩, ⟨⟨1, 2, 5⟩, none, some 1⟩], 7, 9, true⟩]
      [⟨⟨1, 2, 5⟩, none, some 1⟩] 7 9 rfl
  exact hthm.1 ⟨⟨1, 2, 5⟩, none, some 1⟩ (by simp)

/-- Claim C9, counterexample: the code trusts the node's reported heights, so
a successful fetch that never saw a reorg rejection can still return a cursor
height strictly below the starting cursor when the node reports a lower
height: starting at Some(5), a single finished page with height 0 succeeds
and returns 0. -/
theorem fetch_cursor_can_decrease :
    fetch_coin_states 0 (some 5) 0 [] 0 [.ok ⟨[], 0, 0, true⟩] =
        .success [] 0 0 ∧ ¬ (5 ≤ 0) := by
  exact ⟨rfl, by decide⟩

/-- Claim C9, amended: provided every Ok page of the reply script reports a
height at least the starting cursor height (a well-behaved node), a fetch
completing successfully from a Some(h0) cursor returns a height at least h0;
the cursor the orchestrator then stores for the window is therefore
non-decreasing across successful fetches, except for the explicit reorg reset
to None. -/
theorem fetch_monotonic_cursor (g : Bytes32) (h0 : Nat) (shh : Bytes32)
    (phs : List Bytes32) (dust : Nat) (replies : List FetchReply)
    (l : List CoinState) (h : Nat) (hh : Bytes32)
    (hmono : heightsAtLeast h0 replies = true)
    (hs : fetch_coin_states g (some h0) shh phs dust replies = .success l h hh) :
    h0 ≤ h := by
  unfold fetch_coin_states at hs
  cases hL : fetchLoop g (some h0) (some h0) shh [] replies with
  | finished out oph ohh =>
    rw [hL] at hs
    simp only at hs
    cases oph with
    | none => simp at hs
    | some hgt =>
      simp only at hs
      injection hs with h1 h2 h3
      rcases fetchLoop_finished_height replies g (some h0) (some h0) shh []
          out (some hgt) ohh hL with ⟨r, hr, hr2⟩
      injection hr2 with hr2
      have hall := List.all_eq_true.mp hmono _ hr
      simp only at hall
      have : h0 ≤ r.height := of_decide_eq_true hall
      rw [← h2, hr2]
      exact this
  | failed e =>
    rw [hL] at hs
    simp at hs
  | incomplete =>
    rw [hL] at hs
    simp at hs

/-- Claim C9, witness. -/
theorem fetch_monotonic_cursor_witness : 2 ≤ (5 : Nat) :=
  fetch_monotonic_cursor 0 2 0 [] 0 [.ok ⟨[], 5, 0, true⟩] [] 5 0
    (by decide) (by decide)

/-! Helper lemmas about the orchestrator. -/

theorem getD_concat_length {α : Type} : ∀ (l : List α) (a d : α),
    (l ++ [a]).getD l.length d = a := by
  intro l
  induction l with
  | nil => intro a d; rfl
  | cons x xs ih => intro a d; exact ih a d

theorem set_concat_length {α : Type} : ∀ (l : List α) (a b : α),
    (l ++ [a]).set l.length b = l ++ [b] := by
  intro l
  induction l with
  | nil => intro a b; rfl
  | cons x xs ih =>
    intro a b
    show x :: (xs ++ [a]).set xs.length b = x :: (xs ++ [b])
    rw [ih]

theorem getD_concat {α : Type} (l : List α) (a d : α) (i : Nat)
    (h : l.length = i) : (l ++ [a]).getD i d = a :=
  h ▸ getD_concat_length l a d

theorem set_concat {α : Type} (l : List α) (a b : α) (i : Nat)
    (h : l.length = i) : (l ++ [a]).set i b = l ++ [b] :=
  h ▸ set_concat_length l a b

/-- The for loop over fetched coin states only rewrites coin_states: the
window's address set is untouched. -/
theorem processCoins_ok_puzzle_hashes (net : Network) :
    ∀ (l : List CoinState) (w w' : Derivations) (s : Nat),
      processCoins net w l = .ok w' s → w'.puzzle_hashes = w.puzzle_hashes := by
  intro l
  induction l with
  | nil =>
    intro w w' s h
    simp only [processCoins] at h
    injection h with h1 h2
    rw [h1]
  | cons cs rest ih =>
    intro w w' s h
    simp only [processCoins] at h
    split at h
    · exact ih w w' s h
    · simp at h
    · simp at h
    · split at h
      · rename_i w₂ saves hrec
        injection h with h1 h2
        rw [← h1]
        exact (ih _ w₂ saves hrec).trans rfl
      · rename_i o hne
        exact absurd h (hne w' s)

/-- The address set of a freshly created window is its windowSpec. -/
theorem newWindow_puzzle_hashes (config : Config) (derive : Nat → Bytes32)
    (index : Nat) :
    (newWindow config derive index).puzzle_hashes = windowSpec derive index := by
  simp only [newWindow, windowSpec]

/-- Master induction for the orchestrator loop: started at `index` with
exactly `index` windows already in the cache, a loop run that returns
normally appends a nonempty block of windows, fetched in increasing index
order, each carrying the address set fixed at its creation, with empty
accumulated coin states exactly at the last one. -/
theorem update_cacheLoop_spec (net : Network) (config : Config)
    (derive : Nat → Bytes32) :
    ∀ (fuel index : Nat) (cache c' : Cache) (trace : List Nat),
      cache.derivations.length = index →
      update_cacheLoop net config derive fuel index cache = .done c' trace →
      ∃ ws : List Derivations,
        c'.derivations = cache.derivations ++ ws ∧
        ws ≠ [] ∧
        trace = List.range' index ws.length ∧
        (∀ j, j < ws.length →
          (ws.getD j defaultWindow).puzzle_hashes = windowSpec derive (index + j)) ∧
        (∀ j, j < ws.length →
          ((ws.getD j defaultWindow).coin_states = [] ↔ j = ws.length - 1)) := by
  intro fuel
  induction fuel with
  | zero =>
    intro index cache c' trace hlen h
    simp [update_cacheLoop] at h
  | succ fuel ih =>
    intro index cache c' trace hlen h
    simp only [update_cacheLoop] at h
    rw [if_pos (le_of_eq hlen)] at h
    have hget : getWin ⟨cache.derivations ++ [newWindow config derive index]⟩ index
        = newWindow config derive index := getD_concat _ _ _ _ hlen
    rw [hget] at h
    cases hF : fetch_coin_states config.genesis_challenge
        (newWindow config derive index).previous_height
        (newWindow config derive index).header_hash
        (newWindow config derive index).puzzle_hashes
        config.dust_threshold (net.fetch_replies index) with
    | failed e => rw [hF] at h; simp at h
    | panicked => rw [hF] at h; simp at h
    | incomplete => rw [hF] at h; simp at h
    | success coin_states ph phh =>
      rw [hF] at h
      simp only at h
      cases hP : processCoins net (newWindow config derive index) coin_states with
      | failed w => rw [hP] at h; simp at h
      | panicked w => rw [hP] at h; simp at h
      | ok w saves =>
        rw [hP] at h
        simp only at h
        have hwp : w.puzzle_hashes = windowSpec derive index :=
          (processCoins_ok_puzzle_hashes net coin_states
            (newWindow config derive index) w saves hP).trans
            (newWindow_puzzle_hashes config derive index)
        set w' : Derivations :=
          { w with previous_height := some ph, header_hash := phh } with hw'
        have hset : setWin ⟨cache.derivations ++ [newWindow config derive index]⟩
            index w' = ⟨cache.derivations ++ [w']⟩ := by
          simp only [setWin]
          exact congrArg Cache.mk (set_concat _ _ _ _ hlen)
        rw [hset] at h
        by_cases hE : w'.coin_states.isEmpty
        · rw [if_pos hE] at h
          injection h with h1 h2
          refine ⟨[w'], by rw [← h1], by simp, by rw [← h2]; rfl, ?_, ?_⟩
          · intro j hj
            have hj0 : j = 0 := by
              simp only [List.length_singleton] at hj
              omega
            subst hj0
            show w'.puzzle_hashes = windowSpec derive (index + 0)
            have : w'.puzzle_hashes = w.puzzle_hashes := rfl
            rw [this, hwp, Nat.add_zero]
          · intro j hj
            have hj0 : j = 0 := by
              simp only [List.length_singleton] at hj
              omega
            subst hj0
            show w'.coin_states = [] ↔ 0 = 1 - 1
            have hnil : w'.coin_states = [] := by
              simpa [List.isEmpty_iff] using hE
            exact ⟨fun _ => rfl, fun _ => hnil⟩
        · rw [if_neg hE] at h
          cases hR : update_cacheLoop net config derive fuel (index + 1)
              ⟨cache.derivations ++ [w']⟩ with
          | done c t =>
            rw [hR] at h
            simp only at h
            injection h with h1 h2
            have hlen' : (Cache.mk (cache.derivations ++ [w'])).derivations.length
                = index + 1 := by
              simp [hlen]
            rcases ih (index + 1) ⟨cache.derivations ++ [w']⟩ c t hlen' hR with
              ⟨ws', hc, hne, ht, hph, hcs⟩
            refine ⟨w' :: ws', ?_, by simp, ?_, ?_, ?_⟩
            · rw [← h1, hc]
              simp
            · rw [← h2, ht]
              rfl
            · intro j hj
              cases j with
              | zero =>
                show w'.puzzle_hashes = windowSpec derive (index + 0)
                have : w'.puzzle_hashes = w.puzzle_hashes := rfl
                rw [this, hwp, Nat.add_zero]
              | succ j₁ =>
                have hj₁ : j₁ < ws'.length := by
                  simp only [List.length_cons] at hj
                  omega
                have := hph j₁ hj₁
                show (ws'.getD j₁ defaultWindow).puzzle_hashes
                  = windowSpec derive (index + (j₁ + 1))
                rw [this]
                have harith : index + 1 + j₁ = index + (j₁ + 1) := by omega
                rw [harith]
            · intro j hj
              cases j with
              | zero =>
                show w'.coin_states = [] ↔ 0 = (w' :: ws').length - 1
                have hnnil : w'.coin_states ≠ [] := by
                  intro hx
                  rw [List.isEmpty_iff] at hE
                  exact hE hx
                have hlne : ws'.length ≠ 0 := by
                  intro hx
                  exact hne (List.eq_nil_of_length_eq_zero hx)
                simp only [List.length_cons]
                constructor
                · intro hx
                  exact absurd hx hnnil
                · intro hx
                  omega
              | succ j₁ =>
                have hj₁ : j₁ < ws'.length := by
                  simp only [List.length_cons] at hj
                  omega
                show (ws'.getD j₁ defaultWindow).coin_states = []
                  ↔ j₁ + 1 = (w' :: ws').length - 1
                rw [hcs j₁ hj₁]
                simp only [List.length_cons]
                omega
          | failed c => rw [hR] at h; simp at h
          | panicked c => rw [hR] at h; simp at h
          | stuck c => rw [hR] at h; simp at h
          | outOfFuel c => rw [hR] at h; simp at h

/-- IndexSet insert membership. -/
theorem mem_isInsert (acc : List Bytes32) (a x : Bytes32) :
    x ∈ isInsert acc a ↔ x ∈ acc ∨ x = a := by
  unfold isInsert
  split
  · rename_i hmem
    constructor
    · exact fun hx => Or.inl hx
    · intro hx
      rcases hx with hx | hx
      · exact hx
      · rw [hx]
        exact hmem
  · simp [List.mem_append]

/-- Collecting into an IndexSet preserves membership. -/
theorem mem_isOfList (l : List Bytes32) (x : Bytes32) :
    x ∈ isOfList l ↔ x ∈ l := by
  have main : ∀ (l acc : List Bytes32),
      x ∈ l.foldl isInsert acc ↔ x ∈ acc ∨ x ∈ l := by
    intro l
    induction l with
    | nil => intro acc; simp
    | cons a t ih =>
      intro acc
      show x ∈ t.foldl isInsert (isInsert acc a) ↔ _
      rw [ih, mem_isInsert]
      simp [List.mem_cons]
      tauto
  simpa [isOfList] using main l []

/-- The address set of window i is exactly the derives of the inclusive index
range i*1000 ..= i*1000 + 1000. -/
theorem mem_windowSpec (derive : Nat → Bytes32) (i : Nat) (b : Bytes32) :
    b ∈ windowSpec derive i ↔
      ∃ j, i * 1000 ≤ j ∧ j ≤ i * 1000 + 1000 ∧ b = derive j := by
  unfold windowSpec
  rw [mem_isOfList, List.mem_map]
  constructor
  · intro hx
    rcases hx with ⟨j, hj, hb⟩
    have hr := List.mem_range'_1.mp hj
    exact ⟨j, hr.1, by omega, hb.symm⟩
  · intro hx
    rcases hx with ⟨j, h1, h2, hb⟩
    exact ⟨j, List.mem_range'_1.mpr ⟨h1, by omega⟩, hb.symm⟩

/-- Claim C1: started from an empty cache, the orchestrator loop of
update_cache processes windows in increasing index order (the fetched-window
trace is exactly 0, 1, ..., k), halts exactly after the first round in which
the current window's entire accumulated coin_states map is empty, and never
creates or queries window k+1: the final cache consists of windows 0..k, the
last window has empty coin_states and every earlier window is non-empty. -/
theorem update_cache_gap_limit (net : Network) (config : Config)
    (derive : Nat → Bytes32) (fuel : Nat) (c' : Cache) (trace : List Nat)
    (h : update_cache net config derive fuel ⟨[]⟩ = .done c' trace) :
    c'.derivations.length ≠ 0 ∧
      trace = List.range' 0 c'.derivations.length ∧
      ∀ j, j < c'.derivations.length →
        ((c'.derivations.getD j defaultWindow).coin_states = [] ↔
          j = c'.derivations.length - 1) := by
  rcases update_cacheLoop_spec net config derive fuel 0 ⟨[]⟩ c' trace rfl h with
    ⟨ws, hc, hne, ht, hph, hcs⟩
  have hws : c'.derivations = ws := by simpa using hc
  refine ⟨?_, ?_, ?_⟩
  · rw [hws]
    intro hx
    exact hne (List.eq_nil_of_length_eq_zero hx)
  · rw [hws]
    exact ht
  · intro j hj
    rw [hws] at hj ⊢
    exact hcs j hj

/-- Claim C1, witness. -/
theorem update_cache_gap_limit_witness :
    doneCache0.derivations.length ≠ 0 ∧
      ([0] : List Nat) = List.range' 0 doneCache0.derivations.length ∧
      ((doneCache0.derivations.getD 0 defaultWindow).coin_states = [] ↔
        0 = doneCache0.derivations.length - 1) := by
  have H := update_cache_gap_limit net0 config0 derive0 1 doneCache0 [0] rfl
  exact ⟨H.1, H.2.1, H.2.2 0 (by decide)⟩

/-- Claim C7: every window i created by update_cache (run from an empty
cache) carries the address set derived from indices 1000*i through
1000*i + 1000 inclusive — 1001 derivation indices, collected in the
deterministic derivation order — and the final cache still holds exactly the
creation-time set (it is never mutated after creation); membership in the set
is exactly the derives of that inclusive range, and the boundary index
1000*(i+1) is derived in both window i and window i+1. -/
theorem update_cache_window_addresses (net : Network) (config : Config)
    (derive : Nat → Bytes32) (fuel : Nat) (c' : Cache) (trace : List Nat)
    (h : update_cache net config derive fuel ⟨[]⟩ = .done c' trace) :
    (∀ i, i < c'.derivations.length →
      (c'.derivations.getD i defaultWindow).puzzle_hashes = windowSpec derive i) ∧
      (∀ i b, i < c'.derivations.length →
        (b ∈ (c'.derivations.getD i defaultWindow).puzzle_hashes ↔
          ∃ j, i * 1000 ≤ j ∧ j ≤ i * 1000 + 1000 ∧ b = derive j)) ∧
      (∀ i, i + 1 < c'.derivations.length →
        derive ((i + 1) * 1000) ∈
            (c'.derivations.getD i defaultWindow).puzzle_hashes ∧
          derive ((i + 1) * 1000) ∈
            (c'.derivations.getD (i + 1) defaultWindow).puzzle_hashes) := by
  rcases update_cacheLoop_spec net config derive fuel 0 ⟨[]⟩ c' trace rfl h with
    ⟨ws, hc, hne, ht, hph, hcs⟩
  have hws : c'.derivations = ws := by simpa using hc
  have key : ∀ i, i < c'.derivations.length →
      (c'.derivations.getD i defaultWindow).puzzle_hashes = windowSpec derive i := by
    intro i hi
    rw [hws] at hi ⊢
    have hx := hph i hi
    rwa [Nat.zero_add] at hx
  refine ⟨key, ?_, ?_⟩
  · intro i b hi
    rw [key i hi, mem_windowSpec]
  · intro i hi
    constructor
    · rw [key i (by omega), mem_windowSpec]
      exact ⟨(i + 1) * 1000, by omega, by omega, rfl⟩
    · rw [key (i + 1) hi, mem_windowSpec]
      exact ⟨(i + 1) * 1000, by omega, by omega, rfl⟩

/-- Claim C7, witness. -/
theorem update_cache_window_addresses_witness :
    (doneCache0.derivations.getD 0 defaultWindow).puzzle_hashes =
      windowSpec derive0 0 := by
  have H := update_cache_window_addresses net0 config0 derive0 1 doneCache0 [0] rfl
  exact H.1 0 (by decide)

/-- Claim C2, counterexample: a coin whose puzzle hash is not a window
address and whose puzzle-and-solution lookup is rejected is recorded with
parent_puzzle = none — the absent value, the very same provenance encoding a
self-owned coin receives — not with the distinct tagged value
PuzzleInfo.Unknown (which no code path ever produces). -/
theorem processCoin_unclassified_counterexample :
    processCoins net0 wAddr [csX] =
        .ok ⟨none, 0, [5], [(coinX.coin_id, ⟨⟨1, 7, 10⟩, none, some 2, some 3⟩)]⟩ 1 ∧
      processCoin net0 wSelf csX = .keep none ∧
      (none : Option PuzzleInfo) ≠ some PuzzleInfo.Unknown := by
  exact ⟨rfl, rfl, by decide⟩

/-- Claim C2, amended: for every fetched coin state whose puzzle hash is not
in the window's address set (and that the idempotence check does not skip),
when the fungible-asset-wrapper detector does not match the parent spend, or
the remote node rejects the puzzle-and-solution lookup, the coin is recorded
with absent provenance (parent_puzzle = None — the same encoding as a
self-owned coin, the PuzzleInfo.Unknown variant being dead code), and
processing continues without aborting. -/
theorem processCoin_unclassified (net : Network) (w : Derivations)
    (cs : CoinState) (created : Nat)
    (h1 : cs.coin.puzzle_hash ∉ w.puzzle_hashes)
    (h2 : ∀ existing, imGet w.coin_states cs.coin.coin_id = some existing →
      existing.spent_height ≠ cs.spent_height)
    (h3 : cs.created_height = some created)
    (h4 : net.puzzle_solution cs.coin.parent_coin_info created = .reject ∨
      ∃ psdata states p,
        net.puzzle_solution cs.coin.parent_coin_info created = .ok psdata ∧
        net.coin_state_by_id cs.coin.parent_coin_info = .ok states ∧
        states.head? = some p ∧
        net.from_parent_spend psdata p.coin cs.coin = none) :
    processCoin net w cs = .keep none := by
  have hres : resolveParent net cs = .keep none := by
    unfold resolveParent
    rw [h3]
    rcases h4 with hrej | ⟨psdata, states, p, hps, hcsr, hhead, hnone⟩
    · simp only [hrej]
    · simp only [hps, hcsr, hhead, hnone, Option.map_none']
  unfold processCoin
  rw [if_neg h1]
  cases hG : imGet w.coin_states cs.coin.coin_id with
  | none => exact hres
  | some existing =>
    show (if existing.spent_height = cs.spent_height then CoinOutcome.skip
      else resolveParent net cs) = .keep none
    rw [if_neg (h2 existing hG)]
    exact hres

/-- Claim C2, witness. -/
theorem processCoin_unclassified_witness :
    processCoin net0 wAddr csX = .keep none := by
  exact processCoin_unclassified net0 wAddr csX 2 (by decide)
    (fun existing hx => by simp [wAddr, imGet] at hx) rfl (Or.inl rfl)

/-- Claim C8: a fetched coin whose puzzle hash is not a window address, but
whose record already exists in the window's coin_states with the same spent
height, is a complete no-op: for any peer whatsoever the body returns skip
(so no puzzle-and-solution and no parent coin-state request is issued), the
window — including the existing record — is left unchanged, and no save is
counted for that coin. -/
theorem processCoin_idempotent_skip (net : Network) (w : Derivations)
    (cs : CoinState) (existing : CoinStateJson) (rest : List CoinState)
    (h1 : cs.coin.puzzle_hash ∉ w.puzzle_hashes)
    (h2 : imGet w.coin_states cs.coin.coin_id = some existing)
    (h3 : existing.spent_height = cs.spent_height) :
    processCoin net w cs = .skip ∧
      processCoins net w (cs :: rest) = processCoins net w rest := by
  have hskip : processCoin net w cs = .skip := by
    unfold processCoin
    rw [if_neg h1, h2]
    show (if existing.spent_height = cs.spent_height then CoinOutcome.skip
      else resolveParent net cs) = .skip
    rw [if_pos h3]
  refine ⟨hskip, ?_⟩
  simp only [processCoins]
  rw [hskip]

/-- Claim C8, witness. -/
theorem processCoin_idempotent_skip_witness :
    processCoin net0 wSeen csX = .skip ∧
      processCoins net0 wSeen [csX] = processCoins net0 wSeen [] := by
  exact processCoin_idempotent_skip net0 wSeen csX
    ⟨⟨1, 7, 10⟩, none, some 2, some 3⟩ [] (by decide) rfl rfl

/-! Round-trip lemmas for the JSON rendering of the cache. -/

theorem hexVal_digitChar : ∀ d, d < 16 → hexVal (Nat.digitChar d) = d := by
  decide

theorem natOfHex_hexOfNat (n : Nat) : natOfHex (hexOfNat n) = n := by
  unfold natOfHex hexOfNat
  rw [show (String.mk (((Nat.digits 16 n).map Nat.digitChar).reverse)).data
      = ((Nat.digits 16 n).map Nat.digitChar).reverse from rfl]
  rw [List.reverse_reverse, List.map_map]
  have hmap : (Nat.digits 16 n).map (hexVal ∘ Nat.digitChar)
      = (Nat.digits 16 n).map id := by
    apply List.map_congr_left
    intro d hd
    simp only [Function.comp_apply, id_eq]
    exact hexVal_digitChar d (Nat.digits_lt_base (by omega) hd)
  rw [hmap, List.map_id]
  exact Nat.ofDigits_digits 16 n

theorem decHex_encHex (b : Bytes32) : decHex (encHex b) = some b := by
  simp [decHex, encHex, natOfHex_hexOfNat]

theorem decOptNat_encOptNat (o : Option Nat) : decOptNat (encOptNat o) = some o := by
  cases o <;> rfl

theorem decCoinJson_encCoinJson (c : CoinJson) :
    decCoinJson (encCoinJson c) = some c := by
  cases c with
  | mk p q a => simp [encCoinJson, decCoinJson, encHex, decHex, natOfHex_hexOfNat]

theorem decLineage_encLineage (p : LineageProofJson) :
    decLineage (encLineage p) = some p := by
  cases p with
  | mk a b m => simp [encLineage, decLineage, encHex, decHex, natOfHex_hexOfNat]

theorem decOptLineage_encOptLineage (o : Option LineageProofJson) :
    decOptLineage (encOptLineage o) = some o := by
  cases o with
  | none => rfl
  | some p =>
    show (decLineage (encLineage p)).map some = some (some p)
    rw [decLineage_encLineage]
    rfl

theorem decCat_encCat (c : CatJson) : decCat (encCat c) = some c := by
  cases c with
  | mk a p cj lp =>
    simp [encCat, decCat, decHex_encHex, decCoinJson_encCoinJson,
      decOptLineage_encOptLineage]

theorem decPuzzleInfo_encPuzzleInfo (p : PuzzleInfo) :
    decPuzzleInfo (encPuzzleInfo p) = some p := by
  cases p with
  | Unknown => rfl
  | Cat c =>
    show (decCat (encCat c)).map PuzzleInfo.Cat = some (.Cat c)
    rw [decCat_encCat]
    rfl

theorem decOptPuzzleInfo_encOptPuzzleInfo (o : Option PuzzleInfo) :
    decOptPuzzleInfo (encOptPuzzleInfo o) = some o := by
  cases o with
  | none => rfl
  | some p =>
    cases p with
    | Unknown => rfl
    | Cat c =>
      show (decPuzzleInfo (encPuzzleInfo (.Cat c))).map some = some (some (.Cat c))
      rw [decPuzzleInfo_encPuzzleInfo]
      rfl

theorem decCoinStateJson_encCoinStateJson (cs : CoinStateJson) :
    decCoinStateJson (encCoinStateJson cs) = some cs := by
  cases cs with
  | mk cj pp ch sh =>
    simp [encCoinStateJson, decCoinStateJson, decCoinJson_encCoinJson,
      decOptPuzzleInfo_encOptPuzzleInfo, decOptNat_encOptNat]

theorem decHexList_encHexList : ∀ l : List Bytes32,
    decHexList (l.map encHex) = some l := by
  intro l
  induction l with
  | nil => rfl
  | cons b rest ih => simp [decHexList, decHex_encHex, ih]

theorem decCoinStates_encCoinStates : ∀ m : List (Bytes32 × CoinStateJson),
    decCoinStates (encCoinStates m) = some m := by
  intro m
  induction m with
  | nil => rfl
  | cons kv rest ih =>
    cases kv with
    | mk k v =>
      have ih' := ih
      simp only [encCoinStates] at ih'
      simp [encCoinStates, decCoinStates, decCoinStateJson_encCoinStateJson,
        natOfHex_hexOfNat, ih']

theorem decDerivations_encDerivations (d : Derivations) :
    decDerivations (encDerivations d) = some d := by
  cases d with
  | mk ph hh phs cs =>
    simp [encDerivations, decDerivations, decOptNat_encOptNat, decHex_encHex,
      decHexList_encHexList, decCoinStates_encCoinStates]

theorem decDerivList_encDerivList : ∀ l : List Derivations,
    decDerivList (l.map encDerivations) = some l := by
  intro l
  induction l with
  | nil => rfl
  | cons d rest ih => simp [decDerivList, decDerivations_encDerivations, ih]

/-- Claim C10: serializing any Cache value with Cache::save (the derived serde
rendering to a JSON document) and deserializing the written contents with
Cache::load yields the cache unchanged: every window's previous_height,
header_hash, puzzle_hashes (with order), and coin_states entries (with
insertion order and each record's coin, parent_puzzle, created_height and
spent_height) survive the round-trip. -/
theorem cache_save_load_roundtrip (c : Cache) :
    Cache.fromJson (Cache.toJson c) = some c := by
  cases c with
  | mk ds => simp [Cache.toJson, Cache.fromJson, decDerivList_encDerivList]
